import Mathlib

/-
Verification of the BrettWhitson/brettwhitson.github.io front-end sources.

The development shallowly embeds the two JavaScript files the claims are
about:

* `src/javascript/builder.js` — the static `Builder` DOM-construction
  utility (`build`, `multibuild`, `mod.class.*`, `mod.attribute.*`,
  `pack`, `chain`).
* `src/javascript/main.js` — `PortfolioController.validateDataStructure`,
  the `PortfolioController.init` re-entrancy guard, and the
  `ThemeController` theme persistence logic.

DOM elements are modelled as a pure tree (`Node`); a DOM element's child
list may hold both raw markup (set through `innerHTML`) and element
children, so a child is `String ⊕ Node`.  Fragments are ordered lists of
nodes.  Methods that throw on the platform (`appendChild` of a non-node,
`forEach` of a non-array, an invalid class token) return `Option`/`Except`
values, with `none`/`error` standing for the thrown exception.
-/

namespace Portfolio

/-- A DOM element: tag name, attribute list (in document order, unique
keys as maintained by `setAttribute`), and an ordered child list whose
entries are either raw markup text (`Sum.inl`, written by `innerHTML`) or
element children (`Sum.inr`, appended by `appendChild`). -/
inductive Node where
  | elem (tag : String) (attrs : List (String × String)) (kids : List (String ⊕ Node)) : Node

def Node.tag : Node → String
  | .elem t _ _ => t

def Node.attrs : Node → List (String × String)
  | .elem _ a _ => a

def Node.kids : Node → List (String ⊕ Node)
  | .elem _ _ k => k

/-- `element.appendChild(c)`: append an element child at the end. -/
def Node.appendChild : Node → Node → Node
  | .elem t a k, c => .elem t a (k ++ [Sum.inr c])

/-- `element.innerHTML = v`: the platform discards the current children
and replaces the content by the given markup. -/
def Node.setInner : Node → String → Node
  | .elem t a _, v => .elem t a [Sum.inl v]

/-- JS-object / `setAttribute` update semantics on an association list:
an existing key keeps its position and gets the new value, a new key is
appended at the end. -/
def assocSet {α : Type} (l : List (String × α)) (k : String) (v : α) : List (String × α) :=
  if l.any (fun p => p.1 == k) then
    l.map (fun p => if p.1 == k then (k, v) else p)
  else
    l ++ [(k, v)]

/-- `element.setAttribute(k, v)`. -/
def Node.setAttribute : Node → String → String → Node
  | .elem t a kds, k, v => .elem t (assocSet a k v) kds

/-- A value stored in a `Builder.build` options map: either a string
(attribute values, `inner`) or a list of already-constructed nodes
(`children`).  `Sum.inl` is the string case. -/
abbrev OptVal := String ⊕ List Node

/-- The string the platform would coerce an options value to when it is
used where a string is expected (`setAttribute` / `innerHTML`).  The
exact text of the coercion of a node list is irrelevant to every claim;
it is abstracted as a constant. -/
def ovStr : OptVal → String
  | Sum.inl s => s
  | Sum.inr _ => "[object]"

/-- The node list carried by an options value, when it is one.  `v.forEach`
on a string value throws on the platform, hence `none`. -/
def ovNodes : OptVal → Option (List Node)
  | Sum.inl _ => none
  | Sum.inr l => some l

/-- The two reserved keys `Builder.build` installs as own properties of
its `ops` table. -/
def isReserved (k : String) : Bool :=
  k == "inner" || k == "children"

/-- The property names the `ops` object literal inherits from
`Object.prototype`.  The lookup `ops[key]` at any of these names yields
the inherited member — a function, or for `__proto__` the accessor's
result `Object.prototype` — which is truthy, so the `if (ops[key])`
dispatch in `Builder.build` diverts these keys away from
`setAttribute`. -/
def objectPrototypeKeys : List String :=
  ["constructor", "hasOwnProperty", "isPrototypeOf", "propertyIsEnumerable",
   "toLocaleString", "toString", "valueOf",
   "__defineGetter__", "__defineSetter__", "__lookupGetter__", "__lookupSetter__",
   "__proto__"]

/-- Among the inherited names, the call `ops[key](options[key])` throws a
`TypeError` for these: `__proto__` looks up to `Object.prototype`, which
is not callable, and `__defineGetter__` / `__defineSetter__` require a
callable second argument, which is `undefined` here.  For every other
inherited name the call is a harmless no-op whose result is discarded. -/
def protoCallThrows (k : String) : Bool :=
  k == "__proto__" || k == "__defineGetter__" || k == "__defineSetter__"

/-- The keys at which `ops[key]` is truthy, i.e. the keys the
`for`-loop of `Builder.build` does NOT turn into attributes: the two own
methods of the `ops` literal plus every inherited `Object.prototype`
member. -/
def opsTruthy (k : String) : Bool :=
  isReserved k || objectPrototypeKeys.contains k

namespace Builder

/-- One iteration of the `for (let key in options)` loop of
`Builder.build`.  The dispatch is `if (ops[key])`, a truthiness test of a
plain property lookup: the own keys `inner` and `children` run their
handlers; a key naming an inherited `Object.prototype` member is also
truthy, so the code calls the inherited value instead of setting an
attribute (a discarded no-op, except for the names in `protoCallThrows`,
where the call throws); every remaining key becomes a literal
attribute. -/
def buildStep (el : Node) (kv : String × OptVal) : Option Node :=
  if kv.1 == "inner" then
    some (el.setInner (ovStr kv.2))
  else if kv.1 == "children" then
    (ovNodes kv.2).map (fun cs => Node.elem el.tag el.attrs (el.kids ++ cs.map Sum.inr))
  else if objectPrototypeKeys.contains kv.1 then
    if protoCallThrows kv.1 then none else some el
  else
    some (el.setAttribute kv.1 (ovStr kv.2))

/-- `Builder.build(tag, options)` from `src/javascript/builder.js`:
create a fresh element and fold the option entries over it in insertion
order.  The options object is given by its entry list (unique keys, in
insertion order — the runtime representation of a JS object; see
`objOfList` for how duplicate insertions collapse).  `none` models the
`TypeError` thrown when a `children` value is not an array. -/
def build (tag : String) (options : List (String × OptVal)) : Option Node :=
  options.foldlM buildStep (Node.elem tag [] [])

/-- Construction of a JS object literal from a sequence of key/value
insertions: a repeated key keeps its first position and takes the last
value written (last-write-wins). -/
def objOfList (raw : List (String × OptVal)) : List (String × OptVal) :=
  raw.foldl (fun acc p => assocSet acc p.1 p.2) []

/-- Well-formedness of an options map for `build`: every `children` entry
carries a node list (otherwise the platform throws inside `v.forEach`). -/
def wfOptionsB (m : List (String × OptVal)) : Bool :=
  m.all (fun p =>
    !(p.1 == "children") ||
      (match p.2 with
       | Sum.inr _ => true
       | Sum.inl _ => false))

/-- `Builder.multibuild(tag, num, options)`: build one element, then fill
a fragment with `num` deep clones of it (`cloneNode(true)`; in a pure
tree model a deep clone is the value itself). -/
def multibuild (tag : String) (num : Nat) (options : List (String × OptVal)) :
    Option (List Node) :=
  (build tag options).map (fun el => List.replicate num el)

/-- One step of splitting a character list on the space character,
accumulating the chunks right-to-left. -/
def splitStep (c : Char) (acc : List (List Char)) : List (List Char) :=
  if c = ' ' then [] :: acc
  else
    match acc with
    | [] => [[c]]
    | h :: t => (c :: h) :: t

/-- `classString.split(" ")` (also the split used by
`mod.attribute.remove`): JS splits on every single space, so the result
is never empty, the empty string yields `[""]`, and adjacent or edge
spaces produce empty chunks. -/
def splitTokens (s : String) : List String :=
  (s.toList.foldr splitStep [[]]).map (fun cs => String.mk cs)

/-- `classList` single-token toggle (no `force` argument): remove the
token when present, append it when absent. -/
def toggleOne (cl : List String) (t : String) : List String :=
  if cl.contains t then cl.erase t else cl ++ [t]

/-- `classList` single-token add-or-keep (what `toggle(t, force)` does
when `force` is truthy). -/
def addToken (cl : List String) (t : String) : List String :=
  if cl.contains t then cl else cl ++ [t]

/-- `classList` single-token removal (what `toggle(t, force)` does when
`force` is falsy). -/
def removeToken (cl : List String) (t : String) : List String := cl.erase t

/-- `Builder.mod.class.toggle(node, classString)` acting on the node's
class list: the split tokens are spread into `classList.toggle`, whose
signature is `toggle(token, force?)`.  So only the first token is ever
looked at; a second token becomes the `force` flag (truthy unless it is
the empty string) and any further tokens are ignored.  An empty first
token makes the platform throw (`none`).  (Lean does not allow `class`
as a plain name, hence the flattened name.) -/
def modClassToggle (cl : List String) (classString : String) : Option (List String) :=
  match splitTokens classString with
  | [] => none
  | [t] => if t == "" then none else some (toggleOne cl t)
  | t :: f :: _ =>
      if t == "" then none
      else some (if f == "" then removeToken cl t else addToken cl t)

/-- The behaviour the spec ascribes to `mod.class.toggle`, stated from
the spec's words for comparison: "each token toggled independently". -/
def specClassToggle (cl : List String) (classString : String) : List String :=
  (splitTokens classString).foldl toggleOne cl

/-- `element.removeAttribute(name)`: drop the attribute with that name
(a no-op when absent). -/
def removeAttributeOne (attrs : List (String × String)) (name : String) :
    List (String × String) :=
  attrs.filter (fun p => !(p.1 == name))

/-- `Builder.mod.attribute.remove(node, attributeString)` acting on the
node's attribute list: the split names are spread into
`removeAttribute`, which takes a single name, so only the first name is
removed and the rest are ignored. -/
def modAttributeRemove (attrs : List (String × String)) (attributeString : String) :
    List (String × String) :=
  match splitTokens attributeString with
  | [] => attrs
  | a :: _ => removeAttributeOne attrs a

/-- The behaviour the spec ascribes to `mod.attribute.remove`, stated
from the spec's words for comparison: every named attribute removed. -/
def specAttributeRemove (attrs : List (String × String)) (attributeString : String) :
    List (String × String) :=
  (splitTokens attributeString).foldl removeAttributeOne attrs

/-- The first argument of `Builder.pack(elementArr, ...elements)`: at a
call site it is either an array of nodes or a single node.  (The
zero-argument call, where it is `undefined` and `appendChild` throws, is
not needed by any claim.) -/
inductive PackFirst where
  | arr (l : List Node)
  | node (n : Node)

/-- `Builder.pack`: when the first argument is an object with a truthy
`length` (a nonempty array; our model nodes have no `length` property)
its elements are appended and the variadic rest is ignored; otherwise the
first argument itself is appended — which throws (`none`) when it is an
array, hence the empty-array case — followed by the variadic rest. -/
def pack (first : PackFirst) (elements : List Node) : Option (List Node) :=
  match first with
  | .arr l => if l.length != 0 then some l else none
  | .node n => some (n :: elements)

/-- Nesting loop of `Builder.chain`: each later node is appended as a
child of the previously appended one (`lowest`).  Appending the rest of
the chain into `b` before `b` goes into `a` yields the same tree as the
JS in-place mutation order. -/
def chainNest : Node → List Node → Node
  | a, [] => a
  | a, b :: rest => a.appendChild (chainNest b rest)

/-- `Builder.chain(...elements)`: the first element is appended to the
fragment (making `lastElementChild` non-null from then on), every later
element is appended to the previous one, so the fragment holds only the
root. -/
def chain (elements : List Node) : List Node :=
  match elements with
  | [] => []
  | a :: rest => [chainNest a rest]

end Builder

namespace PortfolioController

/-- JS truthiness of a possibly-missing string field: `undefined` and the
empty string are falsy, every other string is truthy. -/
def truthy : Option String → Bool
  | none => false
  | some s => !(s == "")

/-- One entry of the `sections` array of the content document.  The three
fields checked by `validateDataStructure` are modelled; a missing field
is `none`.  (`section` and `type` are Lean keywords, hence the guillemet
names.) -/
structure JsSection where
  «section» : Option String
  title : Option String
  «type» : Option String

/-- An opaque JS value about which validation only asks whether
`typeof v === "object"` holds. -/
inductive JsOpaque where
  | objVal
  | primVal

/-- The loaded content document (`this.data` after `response.json()`,
already known to be a non-null object).  `sections` is `none` when the
field is missing or not an array; `icons` / `ext` model the two optional
top-level fields. -/
structure JsData where
  sections : Option (List JsSection)
  icons : Option JsOpaque
  ext : Option JsOpaque

/-- `section[field]` for the three required field names. -/
def getField (s : JsSection) (f : String) : Option String :=
  if f == "section" then s.«section»
  else if f == "title" then s.title
  else if f == "type" then s.«type»
  else none

def requiredFields : List String := ["section", "title", "type"]

def validTypes : List String := ["pg", "ls", "rs"]

/-- The per-section body of the `forEach` in
`PortfolioController.validateDataStructure`: collect the required fields
that are falsy and throw when any is missing, then throw when the `type`
value is not one of the recognized tags.  (The JS also throws when the
array entry is not an object; every value of `JsSection` is one, so that
branch is unreachable in the model.  The thrown messages interpolate the
section index; the index does not affect acceptance and is elided.) -/
def validateSection (s : JsSection) : Except String Unit :=
  let missingFields := requiredFields.filter (fun f => !truthy (getField s f))
  if !missingFields.isEmpty then
    Except.error "Section missing required fields"
  else if !(validTypes.contains (s.«type».getD "")) then
    Except.error "Section has invalid type"
  else
    Except.ok ()

/-- The `sections.forEach(...)` loop: sections are validated in order and
the first defect throws, aborting the whole validation. -/
def validateSections : List JsSection → Except String Unit
  | [] => Except.ok ()
  | s :: rest => do
      validateSection s
      validateSections rest

/-- `PortfolioController.validateDataStructure` (the loaded-data object
checks that cannot fail in this typed model — data non-null, data an
object — are elided): reject when `sections` is missing or not an array,
when it is empty, when a section fails `validateSection`, and when the
optional `icons` / `ext` values are present but not objects. -/
def validateDataStructure (d : JsData) : Except String Unit := do
  match d.sections with
  | none => Except.error "Invalid data structure: sections missing or not array"
  | some l =>
      if l.isEmpty then
        Except.error "No sections found in data"
      else do
        validateSections l
        match d.icons with
        | some JsOpaque.primVal => Except.error "Icons data must be an object"
        | _ => pure ()
        match d.ext with
        | some JsOpaque.primVal => Except.error "External links data must be an object"
        | _ => pure ()

/-- All checks `validateSection` performs on one section, as a single
boolean. -/
def sectionOk (s : JsSection) : Bool :=
  truthy s.«section» && truthy s.title && truthy s.«type» &&
    validTypes.contains (s.«type».getD "")

/-- The successful initialization pipeline after the fetch resolves:
`loadPageData` runs `validateDataStructure` and a thrown error propagates
out of `init` before any build step runs, so a rejected document renders
nothing.  On success the page shows one container per section with id
`<slug>-section`. -/
def initRenderedSections (d : JsData) : Except String (List String) := do
  validateDataStructure d
  pure ((d.sections.getD []).map (fun s => (s.«section».getD "") ++ "-section"))

/-- State of the `PortfolioController` initialization protocol.  `data`
is `this.data` (set only when the fetch of `loadPageData` resolves);
`pending` counts init passes suspended at the fetch `await`;
`passesStarted` counts calls of `init` that got past the guard;
`rendersDone` counts passes whose synchronous post-fetch rendering
completed. -/
structure CState where
  data : Option Nat
  pending : Nat
  passesStarted : Nat
  rendersDone : Nat

def initialState : CState := ⟨none, 0, 0, 0⟩

/-- The two scheduler events of the (success-path) init protocol: a call
of `init`, and the resolution of an outstanding fetch, after which the
rest of the render pass runs synchronously to completion. -/
inductive Ev where
  | callInit
  | fetchResolve (d : Nat)

/-- One event step.  `init` begins with
`if (this.data !== null) return;` — the only re-entrancy guard — and
then suspends at the fetch; a fetch resolution stores the data and
finishes that pass's render synchronously. -/
def step (s : CState) : Ev → CState
  | .callInit =>
      if s.data ≠ none then s
      else { s with pending := s.pending + 1, passesStarted := s.passesStarted + 1 }
  | .fetchResolve d =>
      if s.pending = 0 then s
      else { s with data := some d, pending := s.pending - 1,
                    rendersDone := s.rendersDone + 1 }

/-- Run a sequence of events from the freshly constructed controller. -/
def run (evs : List Ev) : CState := evs.foldl step initialState

end PortfolioController

namespace ThemeController

def themes : List String := ["light", "dark"]

/-- Theme-relevant state: the `localStorage` slot under the storage key
and the `data-theme` attribute of the document element.  The claims
condition on storage being writable, so `localStorage` writes are
modelled as succeeding. -/
structure St where
  stored : Option String
  docTheme : Option String

/-- `ThemeController.getSavedTheme`: a stored value is only reported when
it is one of the two recognized tokens. -/
def getSavedTheme (s : St) : Option String :=
  match s.stored with
  | some v => if themes.contains v then some v else none
  | none => none

/-- `ThemeController.getSystemTheme` as a function of the
`prefers-color-scheme: dark` media query. -/
def getSystemTheme (systemDark : Bool) : String :=
  if systemDark then "dark" else "light"

/-- `ThemeController.setTheme`: an unrecognized theme is rejected with a
warning; a recognized one is written to the `data-theme` attribute and
persisted to storage.  (The toggle-button relabelling and the
`themechange` event do not touch this state.) -/
def setTheme (theme : String) (s : St) : St :=
  if themes.contains theme then { stored := some theme, docTheme := some theme } else s

/-- `ThemeController.initializeTheme`: the saved preference wins over the
system preference, and the result is applied through `setTheme`. -/
def initializeTheme (systemDark : Bool) (s : St) : St :=
  setTheme ((getSavedTheme s).getD (getSystemTheme systemDark)) s

/-- `ThemeController.handleSystemThemeChange`: return immediately when a
saved preference exists, otherwise follow the system. -/
def handleSystemThemeChange (eventMatches : Bool) (s : St) : St :=
  if (getSavedTheme s).isSome then s
  else setTheme (if eventMatches then "dark" else "light") s

end ThemeController

end Portfolio

open Portfolio Portfolio.Builder Portfolio.PortfolioController Portfolio.ThemeController

@[simp]
theorem Portfolio.Node.tag_elem (t : String) (a : List (String × String))
    (k : List (String ⊕ Node)) : (Node.elem t a k).tag = t := rfl

@[simp]
theorem Portfolio.Node.attrs_elem (t : String) (a : List (String × String))
    (k : List (String ⊕ Node)) : (Node.elem t a k).attrs = a := rfl

@[simp]
theorem Portfolio.Node.kids_elem (t : String) (a : List (String × String))
    (k : List (String ⊕ Node)) : (Node.elem t a k).kids = k := rfl

@[simp]
theorem Portfolio.Node.attrs_setInner (e : Node) (v : String) :
    (e.setInner v).attrs = e.attrs := by cases e; rfl

@[simp]
theorem Portfolio.Node.kids_setInner (e : Node) (v : String) :
    (e.setInner v).kids = [Sum.inl v] := by cases e; rfl

@[simp]
theorem Portfolio.Node.tag_setInner (e : Node) (v : String) :
    (e.setInner v).tag = e.tag := by cases e; rfl

@[simp]
theorem Portfolio.Node.attrs_setAttribute (e : Node) (k v : String) :
    (e.setAttribute k v).attrs = assocSet e.attrs k v := by cases e; rfl

@[simp]
theorem Portfolio.Node.kids_setAttribute (e : Node) (k v : String) :
    (e.setAttribute k v).kids = e.kids := by cases e; rfl

@[simp]
theorem Portfolio.Node.tag_setAttribute (e : Node) (k v : String) :
    (e.setAttribute k v).tag = e.tag := by cases e; rfl

/-- C2 --- corrected reading of `Builder.mod.class.toggle`: on a node
carrying class `a`, the call with the two-token string `"a b"` leaves the
class list at `["a"]` (the second token is consumed as the truthy `force`
flag, force-adding the already-present first token and never touching
`b`), while toggling each token independently — what the claim states —
would yield `["b"]`.  The code therefore does not toggle each token of a
space-separated string independently. -/
theorem c2_class_toggle_bug :
    Builder.modClassToggle ["a"] "a b" = some ["a"] ∧
    Builder.specClassToggle ["a"] "a b" = ["b"] ∧
    Builder.modClassToggle ["a"] "a b" ≠ some (Builder.specClassToggle ["a"] "a b") := by
  refine ⟨rfl, rfl, by decide⟩

/-- C3 --- corrected reading of `Builder.mod.attribute.remove`: on a node
with attributes `a="1"` and `b="2"`, the call with the string `"a b"`
removes only `a` (the split names are spread into the single-name
`removeAttribute`, which ignores extra arguments), while removing every
named attribute — what the claim states — would leave no attributes. -/
theorem c3_attribute_remove_bug :
    Builder.modAttributeRemove [("a", "1"), ("b", "2")] "a b" = [("b", "2")] ∧
    Builder.specAttributeRemove [("a", "1"), ("b", "2")] "a b" = [] ∧
    Builder.modAttributeRemove [("a", "1"), ("b", "2")] "a b" ≠
      Builder.specAttributeRemove [("a", "1"), ("b", "2")] "a b" := by
  refine ⟨rfl, rfl, by decide⟩

/-- C4 --- counterexample: `Builder.chain` APPENDS each subsequent node
to the previous one, so a first node that already has a child (a
legitimate built node, e.g. one built with the `children` option) keeps
it: chaining `b` onto such an `a` makes `b` the LAST child of `a`, not
its only child, refuting the claim's universally quantified sole-child
nesting.  -/
theorem c4_chain_last_child_counterexample :
    Builder.chain [Node.elem "div" [] [Sum.inr (Node.elem "span" [] [])],
        Node.elem "b" [] []]
      = [Node.elem "div" []
          [Sum.inr (Node.elem "span" [] []), Sum.inr (Node.elem "b" [] [])]] ∧
    (Node.elem "div" []
        [Sum.inr (Node.elem "span" [] []), Sum.inr (Node.elem "b" [] [])]).kids ≠
      [Sum.inr (Node.elem "b" [] [])] := by
  refine ⟨rfl, ?_⟩
  simp

/-- C4 --- amended: `chain()` yields an empty fragment; `chain(a)` yields
a fragment holding exactly `a` with no children added; in general each
subsequent node is appended as a new LAST child of the previous one
(first item the root, last the deepest), preserving any children the
earlier nodes already had; when the chained nodes are freshly built and
hence childless — the intended use — this makes each subsequent node the
previous one's only child, as in `chain(a, b, c)` giving `b` as `a`'s
only child and `c` as `b`'s only child. -/
theorem c4_chain_amended :
    Builder.chain [] = [] ∧
    (∀ a : Node, Builder.chain [a] = [a]) ∧
    (∀ a b : Node, Builder.chain [a, b] =
      [Node.elem a.tag a.attrs (a.kids ++ [Sum.inr b])]) ∧
    (∀ a b c : Node, Builder.chain [a, b, c] =
      [Node.elem a.tag a.attrs
        (a.kids ++ [Sum.inr (Node.elem b.tag b.attrs (b.kids ++ [Sum.inr c]))])]) ∧
    (∀ (ta tb : String) (aa ab : List (String × String)) (c : Node),
      Builder.chain [Node.elem ta aa [], Node.elem tb ab [], c] =
        [Node.elem ta aa [Sum.inr (Node.elem tb ab [Sum.inr c])]]) := by
  refine ⟨rfl, fun _ => rfl, ?_, ?_, fun _ _ _ _ _ => rfl⟩
  · intro a b
    cases a
    rfl
  · intro a b c
    cases a
    cases b
    rfl

/-- C5 --- counterexample: `Builder.pack` applied to an empty array does
not return a fragment containing those (zero) nodes; the empty array has
a falsy `length`, falls into the single-node branch, and
`appendChild(elementArr)` throws (modelled as `none`).  So `pack` does
not return a fragment for every ordered node sequence given in array
form. -/
theorem c5_pack_empty_counterexample :
    Builder.pack (Builder.PackFirst.arr []) [] = none ∧
    Builder.pack (Builder.PackFirst.arr []) [] ≠ some [] :=
  ⟨rfl, fun h => Option.noConfusion h⟩

/-- C5 --- amended: `pack([x, y])` and `pack(x, y)` are equivalent, both
yielding the fragment `[x, y]`; generally any NONEMPTY array and any
variadic call yield a fragment of the given nodes in order, but the
empty array throws instead of yielding an empty fragment. -/
theorem c5_pack_amended :
    (∀ x y : Node,
      Builder.pack (Builder.PackFirst.arr [x, y]) [] = some [x, y] ∧
      Builder.pack (Builder.PackFirst.node x) [y] = some [x, y]) ∧
    (∀ l : List Node, l ≠ [] →
      Builder.pack (Builder.PackFirst.arr l) [] = some l) ∧
    (∀ (x : Node) (xs : List Node),
      Builder.pack (Builder.PackFirst.node x) xs = some (x :: xs)) := by
  refine ⟨fun x y => ⟨rfl, rfl⟩, ?_, fun x xs => rfl⟩
  intro l hl
  have hlen : (l.length != 0) = true := by
    simp [List.length_eq_zero, hl]
  simp [Builder.pack, hlen]

/-- C5 --- witness for the amended statement at a concrete nonempty
array. -/
theorem c5_pack_amended_witness :
    Builder.pack (Builder.PackFirst.arr [Node.elem "div" [] []]) []
      = some [Node.elem "div" [] []] :=
  c5_pack_amended.2.1 [Node.elem "div" [] []] (List.cons_ne_nil _ _)

/-- C6 --- `Builder.multibuild`: whenever `build` yields an element, the
fragment holds exactly `num` copies of it (deep clones, so structurally
identical values) in construction order; `num = 0` yields an empty
fragment; and because the copies are clones rather than aliases,
replacing copy `i` by a mutated version (here: an attribute write) leaves
every other copy `j` unchanged. -/
theorem c6_multibuild_copies :
    ∀ (tag : String) (opts : List (String × OptVal)) (num : Nat) (el : Node),
      Builder.build tag opts = some el →
      Builder.multibuild tag num opts = some (List.replicate num el) ∧
      (List.replicate num el).length = num ∧
      (∀ x ∈ List.replicate num el, x = el) ∧
      Builder.multibuild tag 0 opts = some [] ∧
      (∀ (i j : Nat) (k v : String), i ≠ j → j < num →
        ((List.replicate num el).set i (el.setAttribute k v))[j]? = some el) := by
  intro tag opts num el h
  refine ⟨?_, List.length_replicate num el, ?_, ?_, ?_⟩
  · simp [Builder.multibuild, h]
  · intro x hx
    exact List.eq_of_mem_replicate hx
  · simp [Builder.multibuild, h]
  · intro i j k v hij hj
    rw [List.getElem?_set_ne hij, List.getElem?_replicate, if_pos hj]

/-- C6 --- witness at a concrete build: two structurally identical
`div` copies. -/
theorem c6_multibuild_copies_witness :
    Builder.multibuild "div" 2 [("id", Sum.inl "x")] =
      some [Node.elem "div" [("id", "x")] [], Node.elem "div" [("id", "x")] []] := by
  have h :=
    (c6_multibuild_copies "div" [("id", Sum.inl "x")] 2 (Node.elem "div" [("id", "x")] []) rfl).1
  simpa using h

/-- C9 --- counterexample: starting from a fresh controller, a first
`init` call passes the guard and suspends at the data fetch (`data`
still `null`); a second `init` call arriving before the fetch resolves
also passes the `this.data !== null` guard, so afterwards two render
passes have started, both fetches are pending and no render has
finished — two full render passes overlap, and the re-entrant call was
not rejected. -/
theorem c9_guard_counterexample :
    (run [Ev.callInit]).passesStarted = 1 ∧
    (run [Ev.callInit]).data = none ∧
    (run [Ev.callInit, Ev.callInit]).passesStarted = 2 ∧
    (run [Ev.callInit, Ev.callInit]).pending = 2 ∧
    (run [Ev.callInit, Ev.callInit]).rendersDone = 0 :=
  ⟨rfl, rfl, rfl, rfl, rfl⟩

/-- C9 --- amended: the `this.data !== null` check only rejects an
`init` call made after some earlier pass has completed its fetch (which
sets `data`); while the first fetch is still pending, `data` is `null`
and a re-entrant call is admitted, so overlapping passes are possible
(see the counterexample). -/
theorem c9_guard_amended :
    (∀ s : CState, s.data ≠ none → step s Ev.callInit = s) ∧
    (∀ (s : CState) (d : Nat), s.pending ≠ 0 →
      (step s (Ev.fetchResolve d)).data = some d) := by
  constructor
  · intro s h
    simp [step, h]
  · intro s d h
    simp [step, h]

/-- C9 --- witness for the amended statement: a completed controller
rejects a further `init` call, and a resolving fetch sets `data`. -/
theorem c9_guard_amended_witness :
    step ⟨some 5, 0, 1, 1⟩ Ev.callInit = ⟨some 5, 0, 1, 1⟩ ∧
    (step ⟨none, 1, 1, 0⟩ (Ev.fetchResolve 5)).data = some 5 :=
  ⟨c9_guard_amended.1 ⟨some 5, 0, 1, 1⟩ (by decide),
   c9_guard_amended.2 ⟨none, 1, 1, 0⟩ 5 (by decide)⟩

theorem getSavedTheme_mem {s : St} {v : String} (h : getSavedTheme s = some v) :
    v ∈ themes := by
  cases s with
  | mk st dt =>
    cases st with
    | none => simp [getSavedTheme] at h
    | some w =>
      by_cases hc : w ∈ themes
      · have hw : getSavedTheme ⟨some w, dt⟩ = some w := by simp [getSavedTheme, hc]
        rw [hw] at h
        cases h
        exact hc
      · have hw : getSavedTheme ⟨some w, dt⟩ = none := by simp [getSavedTheme, hc]
        rw [hw] at h
        cases h

theorem initializeTheme_stored (sysDark : Bool) (s : St) :
    ∃ t, t ∈ themes ∧
      initializeTheme sysDark s = { stored := some t, docTheme := some t } := by
  have hm : (getSavedTheme s).getD (getSystemTheme sysDark) ∈ themes := by
    cases hs : getSavedTheme s with
    | some v => simpa [hs] using getSavedTheme_mem hs
    | none => cases sysDark <;> simp [hs, getSystemTheme, themes]
  exact ⟨_, hm, by simp [initializeTheme, setTheme, hm]⟩

/-- C10 --- `setTheme` persists every recognized theme it is given;
`initializeTheme` always goes through `setTheme` with a recognized theme
(the validated saved one, or the system one), so after initialization a
saved preference exists even if the user never toggled; consequently
every subsequent system-preference change event finds a saved preference
and leaves the state — in particular the active theme — unchanged. -/
theorem c10_theme_persistence :
    ∀ (s : St) (sysDark : Bool),
      (∀ t, t ∈ themes → (setTheme t s).stored = some t) ∧
      (getSavedTheme (initializeTheme sysDark s)).isSome = true ∧
      (∀ e, handleSystemThemeChange e (initializeTheme sysDark s) =
        initializeTheme sysDark s) := by
  intro s sysDark
  obtain ⟨t, ht, hinit⟩ := initializeTheme_stored sysDark s
  have hsaved : getSavedTheme (initializeTheme sysDark s) = some t := by
    rw [hinit]
    simp [getSavedTheme, ht]
  refine ⟨?_, ?_, ?_⟩
  · intro u hu
    simp [setTheme, hu]
  · simp [hsaved]
  · intro e
    simp [handleSystemThemeChange, hsaved]

/-- C10 --- witness: starting with empty storage and a dark system
preference, `setTheme "dark"` persists, and a later system change to
light leaves the initialized state untouched. -/
theorem c10_theme_persistence_witness :
    (setTheme "dark" ⟨none, none⟩).stored = some "dark" ∧
    handleSystemThemeChange false (initializeTheme true ⟨none, none⟩) =
      initializeTheme true ⟨none, none⟩ :=
  ⟨(c10_theme_persistence ⟨none, none⟩ true).1 "dark" (by decide),
   (c10_theme_persistence ⟨none, none⟩ true).2.2 false⟩

theorem validateSection_ok_iff (s : JsSection) :
    validateSection s = Except.ok () ↔ sectionOk s = true := by
  unfold validateSection sectionOk requiredFields getField
  cases h1 : truthy s.«section» <;> cases h2 : truthy s.title <;>
    cases h3 : truthy s.«type» <;>
      cases h4 : validTypes.contains (s.«type».getD "") <;>
        simp +decide [h1, h2, h3, h4, List.filter]

theorem validateSections_ok_iff (l : List JsSection) :
    validateSections l = Except.ok () ↔ ∀ s ∈ l, sectionOk s = true := by
  induction l with
  | nil => simp [validateSections]
  | cons s rest ih =>
      simp only [validateSections]
      cases h : validateSection s with
      | ok u =>
          cases u
          have hs : sectionOk s = true := (validateSection_ok_iff s).mp h
          simp [h, Except.bind, ih, hs, Bind.bind]
      | error e =>
          have hs : sectionOk s = false := by
            cases hv : sectionOk s
            · rfl
            · rw [(validateSection_ok_iff s).mpr hv] at h
              cases h
          simp [h, Except.bind, hs, Bind.bind]

theorem validateDataStructure_ok_iff (d : JsData) :
    validateDataStructure d = Except.ok () ↔
      ((∃ l, d.sections = some l ∧ l.isEmpty = false ∧ ∀ s ∈ l, sectionOk s = true) ∧
       d.icons ≠ some JsOpaque.primVal ∧ d.ext ≠ some JsOpaque.primVal) := by
  obtain ⟨sections, icons, ext⟩ := d
  cases sections with
  | none => simp [validateDataStructure]
  | some l =>
      cases he : l.isEmpty with
      | true =>
          have hl : l = [] := by simpa using he
          subst hl
          simp [validateDataStructure]
      | false =>
          have hne : ¬l = [] := by simpa using he
          simp only [validateDataStructure, he]
          cases hv : validateSections l with
          | error e =>
              have hall : ¬ ∀ s ∈ l, sectionOk s = true := by
                intro hmem
                rw [(validateSections_ok_iff l).mpr hmem] at hv
                cases hv
              simp [hv, Except.bind, Bind.bind, hall, he, hne]
          | ok u =>
              cases u
              have hall : ∀ s ∈ l, sectionOk s = true := (validateSections_ok_iff l).mp hv
              cases icons with
              | none =>
                  cases ext with
                  | none =>
                      simp [hv, Except.bind, Bind.bind, Pure.pure, Except.pure, hall, he, hne] <;> exact hall
                  | some o =>
                      cases o <;>
                        simp [hv, Except.bind, Bind.bind, Pure.pure, Except.pure, hall, he, hne] <;> exact hall
              | some o =>
                  cases o with
                  | objVal =>
                      cases ext with
                      | none =>
                          simp [hv, Except.bind, Bind.bind, Pure.pure, Except.pure, hall, he, hne] <;> exact hall
                      | some o2 =>
                          cases o2 <;>
                            simp [hv, Except.bind, Bind.bind, Pure.pure, Except.pure, hall, he, hne] <;> exact hall
                  | primVal =>
                      cases ext with
                      | none =>
                          simp [hv, Except.bind, Bind.bind, Pure.pure, Except.pure, hall, he, hne] <;> exact hall
                      | some o2 =>
                          cases o2 <;>
                            simp [hv, Except.bind, Bind.bind, Pure.pure, Except.pure, hall, he, hne] <;> exact hall

theorem except_isOk_true_iff (e : Except String Unit) :
    e.isOk = true ↔ e = Except.ok () := by
  cases e with
  | error a => simp [Except.isOk, Except.toBool]
  | ok u => cases u; simp [Except.isOk, Except.toBool]

theorem except_isOk_false_iff (e : Except String Unit) :
    e.isOk = false ↔ ¬ e = Except.ok () := by
  cases e with
  | error a => simp [Except.isOk, Except.toBool]
  | ok u => cases u; simp [Except.isOk, Except.toBool]

theorem sectionOk_decomp (s : JsSection) :
    sectionOk s = true ↔
      (truthy s.«section» = true ∧ truthy s.title = true ∧ truthy s.«type» = true ∧
       ∃ t, s.«type» = some t ∧ t ∈ validTypes) := by
  unfold sectionOk
  cases hty : s.«type» with
  | none => simp [truthy]
  | some t =>
      by_cases ht : t ∈ validTypes
      · simp [truthy, ht, and_assoc]
      · simp [truthy, ht]

/-- C7 --- `validateDataStructure` rejects (throws, so the init pipeline
yields no rendered output) whenever the sections array is empty, whenever
some section has a falsy `section`, `title` or `type` field, and whenever
some section's `type` is not one of `pg`, `ls`, `rs`; conversely a
document passing validation has a nonempty sections array all of whose
sections carry truthy required fields and a recognized type. -/
theorem c7_validate_rejects (d : JsData) :
    (d.sections = some [] → (validateDataStructure d).isOk = false) ∧
    (∀ (l : List JsSection) (s : JsSection), d.sections = some l → s ∈ l →
      (truthy s.«section» = false ∨ truthy s.title = false ∨ truthy s.«type» = false) →
      (validateDataStructure d).isOk = false) ∧
    (∀ (l : List JsSection) (s : JsSection), d.sections = some l → s ∈ l →
      (∀ t, s.«type» = some t → t ∉ validTypes) →
      (validateDataStructure d).isOk = false) ∧
    ((validateDataStructure d).isOk = true →
      ∃ l, d.sections = some l ∧ l ≠ [] ∧
        ∀ s ∈ l, truthy s.«section» = true ∧ truthy s.title = true ∧
          truthy s.«type» = true ∧ ∃ t, s.«type» = some t ∧ t ∈ validTypes) ∧
    ((validateDataStructure d).isOk = false →
      ∃ e, initRenderedSections d = Except.error e) := by
  have hiff := validateDataStructure_ok_iff d
  refine ⟨?_, ?_, ?_, ?_, ?_⟩
  · intro h
    rw [except_isOk_false_iff]
    intro hokk
    obtain ⟨⟨l, hl, hne, _⟩, _, _⟩ := hiff.mp hokk
    rw [h] at hl
    cases hl
    simp at hne
  · intro l s hl hs hdef
    rw [except_isOk_false_iff]
    intro hokk
    obtain ⟨⟨l', hl', hne, hall⟩, _, _⟩ := hiff.mp hokk
    rw [hl] at hl'
    cases hl'
    obtain ⟨h1, h2, h3, _⟩ := (sectionOk_decomp s).mp (hall s hs)
    rcases hdef with h | h | h
    · rw [h1] at h; cases h
    · rw [h2] at h; cases h
    · rw [h3] at h; cases h
  · intro l s hl hs hdef
    rw [except_isOk_false_iff]
    intro hokk
    obtain ⟨⟨l', hl', hne, hall⟩, _, _⟩ := hiff.mp hokk
    rw [hl] at hl'
    cases hl'
    obtain ⟨_, _, _, t, hty, htm⟩ := (sectionOk_decomp s).mp (hall s hs)
    exact hdef t hty htm
  · intro hokk
    obtain ⟨⟨l, hl, hne, hall⟩, _, _⟩ := hiff.mp ((except_isOk_true_iff _).mp hokk)
    exact ⟨l, hl, by simpa using hne, fun s hs => (sectionOk_decomp s).mp (hall s hs)⟩
  · intro hf
    have hne : ¬ validateDataStructure d = Except.ok () := (except_isOk_false_iff _).mp hf
    cases hv : validateDataStructure d with
    | ok u => cases u; exact absurd hv hne
    | error e =>
        refine ⟨e, ?_⟩
        simp [initRenderedSections, hv, Except.bind, Bind.bind]

/-- C7 --- witness: each rejection branch and the acceptance direction at
concrete documents. -/
theorem c7_validate_rejects_witness :
    (validateDataStructure ⟨some [], none, none⟩).isOk = false ∧
    (validateDataStructure ⟨some [⟨some "a", none, some "pg"⟩], none, none⟩).isOk = false ∧
    (validateDataStructure ⟨some [⟨some "a", some "T", some "zz"⟩], none, none⟩).isOk = false ∧
    (∃ l, (⟨some [⟨some "a", some "T", some "pg"⟩], none, none⟩ : JsData).sections = some l ∧
      l ≠ [] ∧ ∀ s ∈ l, truthy s.«section» = true ∧ truthy s.title = true ∧
        truthy s.«type» = true ∧ ∃ t, s.«type» = some t ∧ t ∈ validTypes) ∧
    (∃ e, initRenderedSections ⟨some [], none, none⟩ = Except.error e) := by
  refine ⟨?_, ?_, ?_, ?_, ?_⟩
  · exact (c7_validate_rejects ⟨some [], none, none⟩).1 rfl
  · exact (c7_validate_rejects _).2.1 [⟨some "a", none, some "pg"⟩]
      ⟨some "a", none, some "pg"⟩ rfl (List.mem_singleton.mpr rfl) (Or.inr (Or.inl rfl))
  · exact (c7_validate_rejects _).2.2.1 [⟨some "a", some "T", some "zz"⟩]
      ⟨some "a", some "T", some "zz"⟩ rfl (List.mem_singleton.mpr rfl)
      (by intro t ht; cases ht; decide)
  · exact (c7_validate_rejects _).2.2.2.1 (by rfl)
  · exact (c7_validate_rejects _).2.2.2.2 rfl

/-- C8 --- counterexample: a document whose two sections share the slug
`"a"` (both otherwise valid) is accepted by `validateDataStructure`, so
validation does not enforce slug uniqueness. -/
theorem c8_duplicate_slug_counterexample :
    validateDataStructure
      ⟨some [⟨some "a", some "T", some "pg"⟩, ⟨some "a", some "U", some "ls"⟩], none, none⟩
      = Except.ok () ∧
    ¬ (([⟨some "a", some "T", some "pg"⟩, ⟨some "a", some "U", some "ls"⟩] :
        List JsSection).map (fun s => s.«section»)).Nodup := by
  exact ⟨rfl, by decide⟩

/-- C8 --- amended: documents accepted by validation satisfy the
field-presence and recognized-type checks, but slug uniqueness is not
checked: any nonempty list of per-section-valid sections is accepted,
regardless of duplicate slugs. -/
theorem c8_amended_no_uniqueness_check (l : List JsSection) (hne : l ≠ [])
    (hall : ∀ s ∈ l, sectionOk s = true) :
    validateDataStructure ⟨some l, none, none⟩ = Except.ok () := by
  rw [validateDataStructure_ok_iff]
  exact ⟨⟨l, rfl, by simpa using hne, hall⟩, by simp, by simp⟩

/-- C8 --- witness for the amended statement, at the duplicate-slug
document. -/
theorem c8_amended_witness :
    validateDataStructure
      ⟨some [⟨some "a", some "T", some "pg"⟩, ⟨some "a", some "U", some "ls"⟩], none, none⟩
      = Except.ok () :=
  c8_amended_no_uniqueness_check _ (List.cons_ne_nil _ _) (by decide)

theorem buildStep_attrs {e e1 : Node} {p : String × OptVal}
    (h : Builder.buildStep e p = some e1) :
    e1.attrs = if opsTruthy p.1 then e.attrs else assocSet e.attrs p.1 (ovStr p.2) := by
  unfold Builder.buildStep at h
  by_cases h1 : (p.1 == "inner") = true
  · rw [if_pos h1] at h
    cases h
    simp [opsTruthy, isReserved, h1]
  · rw [if_neg h1] at h
    by_cases h2 : (p.1 == "children") = true
    · rw [if_pos h2] at h
      cases hv : ovNodes p.2 with
      | none => rw [hv] at h; cases h
      | some cs =>
          rw [hv] at h
          simp only [Option.map_some'] at h
          cases h
          simp [opsTruthy, isReserved, h2]
    · rw [if_neg h2] at h
      by_cases h3 : objectPrototypeKeys.contains p.1 = true
      · rw [if_pos h3] at h
        by_cases h4 : protoCallThrows p.1 = true
        · rw [if_pos h4] at h
          cases h
        · rw [if_neg h4] at h
          cases h
          have hm3 : p.1 ∈ objectPrototypeKeys := by simpa using h3
          simp [opsTruthy, hm3]
      · rw [if_neg h3] at h
        cases h
        have hb1 : (p.1 == "inner") = false := by simpa using h1
        have hb2 : (p.1 == "children") = false := by simpa using h2
        have hm3 : p.1 ∉ objectPrototypeKeys := by simpa using h3
        simp [opsTruthy, isReserved, hb1, hb2, hm3]

theorem buildFold_attrs :
    ∀ (opts : List (String × OptVal)) (e el : Node),
      List.foldlM Builder.buildStep e opts = some el →
      el.attrs = opts.foldl
        (fun acc p => if opsTruthy p.1 then acc else assocSet acc p.1 (ovStr p.2))
        e.attrs := by
  intro opts
  induction opts with
  | nil =>
      intro e el h
      simp only [List.foldlM] at h
      cases h
      simp
  | cons p rest ih =>
      intro e el h
      simp only [List.foldlM] at h
      cases hb : Builder.buildStep e p with
      | none => rw [hb] at h; cases h
      | some e1 =>
          rw [hb] at h
          have h2 : List.foldlM Builder.buildStep e1 rest = some el := h
          rw [List.foldl_cons, ← buildStep_attrs hb]
          exact ih e1 el h2

theorem buildFold_isSome :
    ∀ (opts : List (String × OptVal)) (e : Node),
      (∀ p ∈ opts, (p.1 = "children" → ∃ cs, p.2 = Sum.inr cs) ∧
        protoCallThrows p.1 = false) →
      ∃ el, List.foldlM Builder.buildStep e opts = some el := by
  intro opts
  induction opts with
  | nil => intro e _; exact ⟨e, rfl⟩
  | cons p rest ih =>
      intro e hwf
      have hstep : ∃ e1, Builder.buildStep e p = some e1 := by
        unfold Builder.buildStep
        split
        · exact ⟨_, rfl⟩
        · split
          · next h1 h2 =>
              obtain ⟨cs, hcs⟩ :=
                (hwf p (List.mem_cons_self p rest)).1 (by simpa using h2)
              rw [hcs]
              exact ⟨_, rfl⟩
          · split
            · have hthrow : protoCallThrows p.1 = false :=
                (hwf p (List.mem_cons_self p rest)).2
              rw [if_neg (by simp [hthrow])]
              exact ⟨_, rfl⟩
            · exact ⟨_, rfl⟩
      obtain ⟨e1, h1⟩ := hstep
      obtain ⟨el, hel⟩ := ih e1 (fun q hq => hwf q (List.mem_cons_of_mem p hq))
      refine ⟨el, ?_⟩
      simp only [List.foldlM, h1, Option.some_bind]
      exact hel

theorem assocSet_of_not_mem {α : Type} (l : List (String × α)) (k : String) (v : α)
    (h : ∀ p ∈ l, ¬ p.1 = k) : assocSet l k v = l ++ [(k, v)] := by
  have hf : ¬ (l.any (fun p => p.1 == k) = true) := by
    rw [List.any_eq_true]
    rintro ⟨p, hp, hpk⟩
    exact h p hp (eq_of_beq hpk)
  unfold assocSet
  rw [if_neg hf]

theorem map_fst_assocSet_of_any {α : Type} (l : List (String × α)) (k : String) (v : α)
    (h : l.any (fun p => p.1 == k) = true) :
    (assocSet l k v).map Prod.fst = l.map Prod.fst := by
  unfold assocSet
  rw [if_pos h, List.map_map]
  apply List.map_congr_left
  intro p hp
  simp only [Function.comp]
  by_cases hk : (p.1 == k) = true
  · rw [if_pos hk]
    exact (eq_of_beq hk).symm
  · rw [if_neg hk]

theorem nodup_map_fst_assocSet {α : Type} (l : List (String × α)) (k : String) (v : α)
    (h : (l.map Prod.fst).Nodup) : ((assocSet l k v).map Prod.fst).Nodup := by
  cases ha : l.any (fun p => p.1 == k) with
  | true => rw [map_fst_assocSet_of_any l k v ha]; exact h
  | false =>
      have hnm : ∀ p ∈ l, ¬ p.1 = k := by
        intro p hp hk
        have hx := List.any_eq_false.mp ha p hp
        apply hx
        rw [hk]
        exact beq_self_eq_true k
      rw [assocSet_of_not_mem l k v hnm, List.map_append]
      rw [List.nodup_append]
      refine ⟨h, by simp, ?_⟩
      intro x hx hx1
      have hxk : x = k := by simpa using hx1
      obtain ⟨p, hp, hpx⟩ := List.mem_map.mp hx
      exact hnm p hp (by rw [hpx, hxk])

theorem objOfList_nodup (raw : List (String × OptVal)) :
    ((Builder.objOfList raw).map Prod.fst).Nodup := by
  unfold Builder.objOfList
  suffices h : ∀ (raw acc : List (String × OptVal)),
      (acc.map Prod.fst).Nodup →
      ((raw.foldl (fun acc p => assocSet acc p.1 p.2) acc).map Prod.fst).Nodup by
    exact h raw [] (by simp)
  intro raw
  induction raw with
  | nil => intro acc h; exact h
  | cons p rest ih =>
      intro acc h
      exact ih _ (nodup_map_fst_assocSet _ _ _ h)

theorem foldl_opsTruthy_assocSet :
    ∀ (m : List (String × OptVal)) (a : List (String × String)),
      (m.map Prod.fst).Nodup →
      (∀ q ∈ a, ∀ km ∈ m.map Prod.fst, ¬ q.1 = km) →
      m.foldl (fun acc p => if opsTruthy p.1 then acc else assocSet acc p.1 (ovStr p.2)) a
        = a ++ (m.filter (fun p => !opsTruthy p.1)).map (fun p => (p.1, ovStr p.2)) := by
  intro m
  induction m with
  | nil => intro a _ _; simp
  | cons p rest ih =>
      intro a hnd hdisj
      rw [List.map_cons, List.nodup_cons] at hnd
      obtain ⟨hp_not, hnd_rest⟩ := hnd
      rw [List.foldl_cons]
      by_cases hr : opsTruthy p.1 = true
      · rw [if_pos hr]
        rw [ih a hnd_rest
          (fun q hq km hkm => hdisj q hq km (List.mem_cons_of_mem _ hkm))]
        simp [List.filter_cons, hr]
      · have hr' : opsTruthy p.1 = false := by simpa using hr
        rw [if_neg hr]
        have hpa : ∀ q ∈ a, ¬ q.1 = p.1 :=
          fun q hq => hdisj q hq p.1 (List.mem_cons_self _ _)
        rw [assocSet_of_not_mem a p.1 (ovStr p.2) hpa]
        rw [ih (a ++ [(p.1, ovStr p.2)]) hnd_rest ?_]
        · simp [List.filter_cons, hr', List.append_assoc]
        · intro q hq km hkm
          rcases List.mem_append.mp hq with hq' | hq'
          · exact hdisj q hq' km (List.mem_cons_of_mem _ hkm)
          · have hq1 : q = (p.1, ovStr p.2) := by simpa using hq'
            intro hqkm
            apply hp_not
            rw [← hqkm, hq1] at hkm
            exact hkm

theorem buildFold_attrOnly :
    ∀ (A : List (String × OptVal)) (e : Node),
      (∀ p ∈ A, opsTruthy p.1 = false) →
      ∃ el, List.foldlM Builder.buildStep e A = some el ∧
        el.kids = e.kids ∧ el.tag = e.tag := by
  intro A
  induction A with
  | nil => intro e _; exact ⟨e, rfl, rfl, rfl⟩
  | cons p rest ih =>
      intro e hA
      have hp := hA p (List.mem_cons_self p rest)
      have h2 := Bool.or_eq_false_iff.mp
        (show (isReserved p.1 || objectPrototypeKeys.contains p.1) = false from hp)
      have h3 := Bool.or_eq_false_iff.mp
        (show ((p.1 == "inner") || (p.1 == "children")) = false from h2.1)
      have hstep : Builder.buildStep e p = some (e.setAttribute p.1 (ovStr p.2)) := by
        unfold Builder.buildStep
        rw [h3.1, h3.2, h2.2]
        simp
      obtain ⟨el, hel, hk, ht⟩ :=
        ih (e.setAttribute p.1 (ovStr p.2)) (fun q hq => hA q (List.mem_cons_of_mem _ hq))
      refine ⟨el, ?_, by rw [hk]; simp, by rw [ht]; simp⟩
      simp only [List.foldlM, hstep, Option.some_bind]
      exact hel

theorem protoCallThrows_le_contains (k : String) (h : protoCallThrows k = true) :
    objectPrototypeKeys.contains k = true := by
  unfold protoCallThrows at h
  simp only [Bool.or_eq_true, beq_iff_eq] at h
  rcases h with (h1 | h1) | h1 <;> (rw [h1]; decide)

/-- C1 --- counterexample: the dispatch `if (ops[key])` in
`Builder.build` sees inherited `Object.prototype` members as truthy, so
an options key such as `toString` is NOT set as an attribute: the code
calls the inherited function and discards the result, leaving the
element without the attribute the claim requires; a `__proto__` key even
throws (the looked-up `Object.prototype` is not callable).  So the node
does not, for every options map, carry exactly the map minus `inner` and
`children` as attributes. -/
theorem c1_proto_key_counterexample :
    Builder.build "div" (Builder.objOfList [("toString", Sum.inl "x")])
      = some (Node.elem "div" [] []) ∧
    (¬ ∃ el, Builder.build "div" (Builder.objOfList [("toString", Sum.inl "x")]) = some el ∧
      el.attrs = ((Builder.objOfList [("toString", Sum.inl "x")]).filter
        (fun p => !isReserved p.1)).map (fun p => (p.1, ovStr p.2))) ∧
    Builder.build "div" (Builder.objOfList [("__proto__", Sum.inl "x")]) = none := by
  refine ⟨rfl, ?_, rfl⟩
  rintro ⟨el, h1, h2⟩
  have hx : Builder.build "div" (Builder.objOfList [("toString", Sum.inl "x")])
      = some (Node.elem "div" [] []) := rfl
  rw [hx] at h1
  cases h1
  exact absurd h2 (by decide)

/-- C1 --- amended: for every options map whose keys avoid the
`Object.prototype` property names (which the `if (ops[key])` dispatch
diverts away from `setAttribute`), the built node carries exactly the
options map minus the reserved keys `inner` and `children` as
attributes, in insertion order, last-write-wins on duplicate insertions
(realized by `objOfList`); an `inner` entry sets the node's rendered
content and a `children` entry appends each listed child in sequence
order. -/
theorem c1_build_amended :
    (∀ (tag : String) (raw : List (String × OptVal)),
      wfOptionsB (Builder.objOfList raw) = true →
      (∀ p ∈ Builder.objOfList raw, objectPrototypeKeys.contains p.1 = false) →
      ∃ el, Builder.build tag (Builder.objOfList raw) = some el ∧
        el.attrs = ((Builder.objOfList raw).filter (fun p => !isReserved p.1)).map
          (fun p => (p.1, ovStr p.2))) ∧
    (∀ (tag : String) (A : List (String × OptVal)) (v : String),
      (∀ p ∈ A, opsTruthy p.1 = false) →
      ∃ el, Builder.build tag (A ++ [("inner", Sum.inl v)]) = some el ∧
        el.kids = [Sum.inl v]) ∧
    (∀ (tag : String) (A : List (String × OptVal)) (cs : List Node),
      (∀ p ∈ A, opsTruthy p.1 = false) →
      ∃ el, Builder.build tag (A ++ [("children", Sum.inr cs)]) = some el ∧
        el.kids = cs.map Sum.inr) := by
  refine ⟨?_, ?_, ?_⟩
  · intro tag raw hwf hproto
    have hwf' : ∀ p ∈ Builder.objOfList raw,
        (p.1 = "children" → ∃ cs, p.2 = Sum.inr cs) ∧ protoCallThrows p.1 = false := by
      intro p hp
      constructor
      · intro hk
        have hall := List.all_eq_true.mp hwf p hp
        cases hv : p.2 with
        | inl s => rw [hk, hv] at hall; simp at hall
        | inr cs => exact ⟨cs, rfl⟩
      · cases hthrow : protoCallThrows p.1 with
        | false => rfl
        | true =>
            exact absurd (protoCallThrows_le_contains p.1 hthrow)
              (by simpa using hproto p hp)
    obtain ⟨el, hel⟩ := buildFold_isSome (Builder.objOfList raw) (Node.elem tag [] []) hwf'
    have hattrs := buildFold_attrs _ _ _ hel
    simp only [Node.attrs_elem] at hattrs
    rw [foldl_opsTruthy_assocSet (Builder.objOfList raw) [] (objOfList_nodup raw)
      (by simp)] at hattrs
    have hfilter : (Builder.objOfList raw).filter (fun p => !opsTruthy p.1)
        = (Builder.objOfList raw).filter (fun p => !isReserved p.1) := by
      apply List.filter_congr
      intro p hp
      show (!opsTruthy p.1) = (!isReserved p.1)
      have hc : p.1 ∉ objectPrototypeKeys := by simpa using hproto p hp
      simp [opsTruthy, hc]
    rw [hfilter] at hattrs
    exact ⟨el, hel, by simpa using hattrs⟩
  · intro tag A v hA
    obtain ⟨e1, he1, hk, ht⟩ := buildFold_attrOnly A (Node.elem tag [] []) hA
    refine ⟨e1.setInner v, ?_, by simp⟩
    unfold Builder.build
    rw [List.foldlM_append, he1]
    have hstep : Builder.buildStep e1 ("inner", Sum.inl v) = some (e1.setInner v) := by
      unfold Builder.buildStep
      simp [ovStr]
    simp only [Option.some_bind, List.foldlM, hstep]
    rfl
  · intro tag A cs hA
    obtain ⟨e1, he1, hk, ht⟩ := buildFold_attrOnly A (Node.elem tag [] []) hA
    have hk0 : e1.kids = [] := by simpa using hk
    refine ⟨Node.elem e1.tag e1.attrs (e1.kids ++ cs.map Sum.inr), ?_, by simp [hk0]⟩
    unfold Builder.build
    rw [List.foldlM_append, he1]
    have hstep : Builder.buildStep e1 ("children", Sum.inr cs) =
        some (Node.elem e1.tag e1.attrs (e1.kids ++ cs.map Sum.inr)) := by
      unfold Builder.buildStep
      simp [ovNodes]
    simp only [Option.some_bind, List.foldlM, hstep]
    rfl

/-- C1 --- witness for the amended statement: a duplicate `id` insertion
keeps first position with the last value, a non-reserved key becomes a
literal attribute, `inner` sets the content, `children` appends the
given child. -/
theorem c1_build_amended_witness :
    (∃ el, Builder.build "div"
        (Builder.objOfList [("id", Sum.inl "x"), ("title", Sum.inl "c"), ("id", Sum.inl "y")])
        = some el ∧ el.attrs = [("id", "y"), ("title", "c")]) ∧
    (∃ el, Builder.build "p" ([("id", Sum.inl "z")] ++ [("inner", Sum.inl "hi")]) = some el ∧
      el.kids = [Sum.inl "hi"]) ∧
    (∃ el, Builder.build "p"
        ([("id", Sum.inl "z")] ++ [("children", Sum.inr [Node.elem "a" [] []])])
        = some el ∧ el.kids = [Sum.inr (Node.elem "a" [] [])]) := by
  refine ⟨?_, ?_, ?_⟩
  · obtain ⟨el, h1, h2⟩ := c1_build_amended.1 "div"
      [("id", Sum.inl "x"), ("title", Sum.inl "c"), ("id", Sum.inl "y")] (by rfl) (by decide)
    refine ⟨el, h1, ?_⟩
    rw [h2]
    rfl
  · obtain ⟨el, h1, h2⟩ := c1_build_amended.2.1 "p" [("id", Sum.inl "z")] "hi"
      (by intro p hp; rw [List.mem_singleton] at hp; rw [hp]; rfl)
    exact ⟨el, h1, h2⟩
  · obtain ⟨el, h1, h2⟩ := c1_build_amended.2.2 "p" [("id", Sum.inl "z")] [Node.elem "a" [] []]
      (by intro p hp; rw [List.mem_singleton] at hp; rw [hp]; rfl)
    exact ⟨el, h1, by rw [h2]; rfl⟩
